import Mathlib

/-!
Verification development for `script/peft_lora_embedding_semantic_search.py`,
a training script that fine-tunes a sentence-embedding model with low-rank
adapters for duplicate-question detection.

The Python source is shallowly embedded: pure computations become Lean
functions over `ℕ`, `ℚ` (for real-valued tensor arithmetic; torch float
tensors are modelled as lists of rationals, with `ℝ` used only where a
square root is genuinely needed), and `List`.  Fallible Python code
(attribute errors, index errors, argparse exits, division by zero) is
embedded with `Except PyError`.  Library calls whose semantics the script
relies on (TinyDB document stores, `torch.clamp`, `F.normalize`) are
modelled by their documented behaviour.
-/

namespace PeftLora

/-- Runtime failures of the Python script that the embedding tracks. -/
inductive PyError : Type where
  | attributeError : PyError
  | indexError : PyError
  | valueError : PyError
  | zeroDivisionError : PyError
  | systemExit : PyError
deriving DecidableEq

/-! ## Python string primitives

The resume logic parses checkpoint basenames with `in`, `str.replace` and
`int()`.  These are modelled over `List Char` with structural (fuel-based
where needed) recursion so that concrete instances evaluate by `decide`. -/

/-- Python `pat in s` on the character lists of two strings: `pat` occurs as a
contiguous substring. -/
def strInL (pat : List Char) : List Char → Bool
  | [] => pat.isEmpty
  | c :: cs => pat.isPrefixOf (c :: cs) || strInL pat cs

/-- Python `pat in s` for strings. -/
def strIn (pat s : String) : Bool :=
  strInL pat.data s.data

/-- One fuel-indexed pass of Python `s.replace(pat, "")`: every
non-overlapping occurrence of `pat`, scanned left to right, is deleted.
Fuel at least `s.length` is enough because every step consumes at least one
character of the scanned list. -/
def replaceDelFuel (pat : List Char) : ℕ → List Char → List Char
  | 0, s => s
  | _ + 1, [] => []
  | f + 1, c :: cs =>
    if pat.isPrefixOf (c :: cs) && !pat.isEmpty then
      replaceDelFuel pat f (List.drop pat.length (c :: cs))
    else
      c :: replaceDelFuel pat f cs

/-- Python `s.replace(pat, "")` (the script only ever replaces by the empty
string). -/
def pyReplaceDel (s pat : String) : String :=
  ⟨replaceDelFuel pat.data s.data.length s.data⟩

/-- Python `int(s)` restricted to the unsigned decimal literals the script
feeds it: `some` of the value on a nonempty all-digit string, `none`
(a `ValueError` at run time) otherwise. -/
def pyInt? (s : String) : Option ℕ :=
  if !s.data.isEmpty && s.data.all (fun c => c.isDigit) then
    some (s.data.foldl (fun n c => n * 10 + (c.toNat - 48)) 0)
  else
    none

/-! ## Resume-from-checkpoint logic (`main`, lines 536-583)

The parsed command-line arguments relevant to the resume computation.  The
script reads `args.gradient_accumulation_stepp` (a typo) on the `step_`
path; attribute lookup on the argparse namespace is modelled explicitly so
that the resulting `AttributeError` is visible. -/

/-- The argparse namespace field the resume logic needs. -/
structure Args where
  gradient_accumulation_steps : ℕ
deriving DecidableEq

/-- Python attribute access `getattr(args, attr)` on the argparse namespace:
only the field that exists resolves; any other name raises
`AttributeError`. -/
def args_getattr (args : Args) (attr : String) : Except PyError ℕ :=
  if attr = "gradient_accumulation_steps" then .ok args.gradient_accumulation_steps
  else .error .attributeError

/-- Python `a // b` on the non-negative integers the script divides:
`ZeroDivisionError` when `b = 0`, floor division otherwise. -/
def pyFloorDiv (a b : ℕ) : Except PyError ℕ :=
  if b = 0 then .error .zeroDivisionError else .ok (a / b)

/-- Line 466: `num_update_steps_per_epoch = math.ceil(len_train /
args.gradient_accumulation_steps)` — the exact ceiling of the ratio. -/
def num_update_steps_per_epoch (len_train gradient_accumulation_steps : ℕ) : ℕ :=
  (len_train + gradient_accumulation_steps - 1) / gradient_accumulation_steps

/-- The training-loop state the resume block establishes: `starting_epoch`,
`completed_steps`, and the batch offset `resume_step` (`none` models Python
`None`). -/
structure ResumeState where
  starting_epoch : ℕ
  completed_steps : ℕ
  resume_step : Option ℕ
deriving DecidableEq

/-- Lines 551-566 of `main`: parse the checkpoint basename
(`training_difference`) and compute the resume state.  The `epoch` branch
fires whenever `"epoch"` occurs in the name; otherwise the `step_` prefix is
stripped.  On the step path the source reads
`args.gradient_accumulation_stepp` — a misspelling — for the final floor
division, which the embedding performs through `args_getattr` exactly as
Python would. -/
def resume_from_checkpoint_state (training_difference : String) (args : Args)
    (len_train nuspe : ℕ) : Except PyError ResumeState :=
  if strIn "epoch" training_difference then
    match pyInt? (pyReplaceDel training_difference "epoch_") with
    | none => .error .valueError
    | some i => .ok ⟨i + 1, (i + 1) * nuspe, none⟩
  else
    match pyInt? (pyReplaceDel training_difference "step_") with
    | none => .error .valueError
    | some n =>
      let resume_step := n * args.gradient_accumulation_steps
      match pyFloorDiv resume_step len_train with
      | .error e => .error e
      | .ok starting_epoch =>
        let resume_step := resume_step - starting_epoch * len_train
        match args_getattr args "gradient_accumulation_stepp" with
        | .error e => .error e
        | .ok gas =>
          match pyFloorDiv resume_step gas with
          | .error e => .error e
          | .ok completed_steps => .ok ⟨starting_epoch, completed_steps, some resume_step⟩

/-- Lines 575-583 of `main`: how many leading batches of the train dataloader
are skipped in a given epoch.  `accelerator.skip_first_batches` is applied
only in the starting epoch and only when `resume_step` is not `None`. -/
def batches_skipped_in_epoch (resume_from_checkpoint : Bool) (st : ResumeState)
    (epoch : ℕ) : ℕ :=
  if resume_from_checkpoint ∧ epoch = st.starting_epoch ∧ st.resume_step ≠ none then
    st.resume_step.getD 0
  else 0

/-! ## Save and load state hooks (lines 241-253) -/

/-- The loop body of `save_model_hook`: iteration `i` saves `models[i]` with
`weights[i]` — indexed into the current, already shrunken list — and then
`weights.pop()` removes the *last* element.  The returned value is the list
of `(model, state_dict)` pairs actually saved together with the weights left
in flight; an out-of-range `weights[i]` is Python's `IndexError`. -/
def saveLoop {M W : Type} : List M → List W → ℕ → Except PyError (List (M × W) × List W)
  | [], ws, _ => .ok ([], ws)
  | m :: ms, ws, i =>
    match ws.get? i with
    | none => .error .indexError
    | some w =>
      match saveLoop ms ws.dropLast (i + 1) with
      | .error e => .error e
      | .ok (saves, wsFinal) => .ok ((m, w) :: saves, wsFinal)

/-- Model of `save_model_hook(models, weights, output_dir)` (lines 241-245), with the
filesystem effect abstracted to the list of performed saves. -/
def save_model_hook {M W : Type} (models : List M) (weights : List W) :
    Except PyError (List (M × W) × List W) :=
  saveLoop models weights 0

/-- The `while len(models) > 0: model = models.pop()` loop of
`load_model_hook`, fuel-indexed by the initial length: the list of models in
the order they are popped and processed. -/
def popLoop {M : Type} : ℕ → List M → List M
  | 0, _ => []
  | f + 1, ms =>
    match ms.getLast? with
    | none => []
    | some m => m :: popLoop f ms.dropLast

/-- Model of `load_model_hook(models, input_dir)` (lines 248-253): the sequence of
models popped from the in-flight list, each of which is then loaded at most
once. -/
def load_model_hook {M : Type} (models : List M) : List M :=
  popLoop models.length models

/-! ## Dataset-handling dispatch (parse_args lines 181-187, main lines 358-395) -/

/-- Which data-loading path `main` takes. -/
inductive LoadAction : Type where
  | loadMemory : LoadAction
  | loadStreaming : LoadAction
deriving DecidableEq

/-- The `--dataset_handling` argument check of `parse_args`:
`choices=["memory", "streaming"]` makes argparse exit (SystemExit) on any
other value, before `main` ever runs. -/
def parse_args_dataset_handling (dh : String) : Except PyError String :=
  if dh = "memory" ∨ dh = "streaming" then .ok dh else .error .systemExit

/-- The `if args.dataset_handling == "memory" ... elif ... else raise
ValueError` dispatch of `main` (lines 358-395), reduced to which loader
runs. -/
def dataset_handling_dispatch (dh : String) : Except PyError LoadAction :=
  if dh = "memory" then .ok .loadMemory
  else if dh = "streaming" then .ok .loadStreaming
  else .error .valueError

/-- Argument parsing followed by the dispatch: the value reaches the loading
code only if argparse accepted it. -/
def program_dataset_handling (dh : String) : Except PyError LoadAction :=
  match parse_args_dataset_handling dh with
  | .error e => .error e
  | .ok v => dataset_handling_dispatch v

/-! ## Theorems on the resume logic, hooks and argument validation -/

/-- Helper: the pop-until-empty loop of the load hook processes the models in
reverse order, so each model of the list is processed exactly once. -/
lemma popLoop_length_eq_reverse {M : Type} (ms : List M) :
    popLoop ms.length ms = ms.reverse := by
  induction ms using List.reverseRecOn with
  | nil => rfl
  | append_singleton ms a ih =>
    have hlen : (ms ++ [a]).length = ms.length + 1 := by simp
    rw [hlen]
    show (match (ms ++ [a]).getLast? with
      | none => []
      | some m => m :: popLoop ms.length (ms ++ [a]).dropLast) = (ms ++ [a]).reverse
    rw [List.getLast?_concat, List.dropLast_concat, ih, List.reverse_concat]

/-- C6: resuming from a checkpoint whose basename parses on the `epoch`
branch as `epoch_<i>` sets the starting epoch to `i + 1`, the completed-step
counter to `(i + 1) * num_update_steps_per_epoch`, leaves `resume_step` as
`None`, and consequently skips no batches in any epoch. -/
theorem c6_epoch_resume (td : String) (i : ℕ) (args : Args) (len_train nuspe : ℕ)
    (hin : strIn "epoch" td = true)
    (hparse : pyInt? (pyReplaceDel td "epoch_") = some i) :
    resume_from_checkpoint_state td args len_train nuspe
      = .ok ⟨i + 1, (i + 1) * nuspe, none⟩
    ∧ ∀ epoch : ℕ,
        batches_skipped_in_epoch true ⟨i + 1, (i + 1) * nuspe, none⟩ epoch = 0 := by
  constructor
  · unfold resume_from_checkpoint_state
    rw [if_pos (by simp [hin]), hparse]
  · intro epoch
    unfold batches_skipped_in_epoch
    rw [if_neg]
    simp

/-- Witness for C6 at the spec's concrete example: resuming from `epoch_3`
starts at epoch 4 with `4 * num_update_steps_per_epoch` completed steps
(here the per-epoch count for 100 examples at accumulation factor 2 is 50)
and skips no batches in the starting epoch. -/
theorem c6_epoch_resume_witness :
    resume_from_checkpoint_state "epoch_3" ⟨2⟩ 100 (num_update_steps_per_epoch 100 2)
      = .ok ⟨4, 200, none⟩
    ∧ batches_skipped_in_epoch true ⟨4, 200, none⟩ 4 = 0 :=
  ⟨(c6_epoch_resume "epoch_3" 3 ⟨2⟩ 100 (num_update_steps_per_epoch 100 2)
      (by decide) (by decide)).1,
   (c6_epoch_resume "epoch_3" 3 ⟨2⟩ 100 (num_update_steps_per_epoch 100 2)
      (by decide) (by decide)).2 4⟩

/-- C1 (code bug): resuming from `step_250` with gradient-accumulation
factor 2 never reaches the completed-step assignment or the batch skipping:
after computing `resume_step = 500` and the starting epoch, line 566 reads
`args.gradient_accumulation_stepp` — a misspelling of
`gradient_accumulation_steps` — and the argparse namespace has no such
attribute, so the resume logic aborts with `AttributeError` (shown here at
two training-set sizes, one with starting epoch 0 and one with starting
epoch 1). -/
theorem c1_step_resume_typo_attribute_error :
    resume_from_checkpoint_state "step_250" ⟨2⟩ 1000
      (num_update_steps_per_epoch 1000 2) = .error .attributeError
    ∧ resume_from_checkpoint_state "step_250" ⟨2⟩ 400
      (num_update_steps_per_epoch 400 2) = .error .attributeError :=
  ⟨rfl, rfl⟩

/-- Counterexample to C3 as stated: already for two models with their two
pending state dicts the save hook does not save each model with its own
state dict — it indexes `weights[i]` into a list it is popping from the end,
so the second iteration raises `IndexError` (and the second model is never
saved). -/
theorem c3_save_hook_counterexample :
    save_model_hook [(0 : ℕ), 1] [(10 : ℕ), 11] = .error .indexError
    ∧ save_model_hook [(0 : ℕ), 1] [(10 : ℕ), 11] ≠ .ok ([(0, 10), (1, 11)], []) :=
  ⟨rfl, fun h => Except.noConfusion h⟩

/-- C3 amended: with a single model and its state dict (the shape the script
registers the hook for) the save hook saves that model exactly once with its
own state dict and leaves the in-flight weights list empty; the load hook
pops every model from its in-flight list exactly once — it processes the
models in reverse order, so none is loaded twice. -/
theorem c3_hooks_amended :
    (∀ m w : ℕ, save_model_hook [m] [w] = .ok ([(m, w)], []))
    ∧ ∀ ms : List ℕ, load_model_hook ms = ms.reverse :=
  ⟨fun _ _ => rfl, fun ms => popLoop_length_eq_reverse ms⟩

/-- C8: any `--dataset_handling` value other than `"memory"` and
`"streaming"` is rejected by argparse's `choices` check, which exits before
`main` — and hence before any data loading — runs; the two valid values
pass validation and select their loader without an error. -/
theorem c8_dataset_handling_fails_fast (dh : String) :
    ((dh ≠ "memory" ∧ dh ≠ "streaming") →
      program_dataset_handling dh = .error .systemExit)
    ∧ program_dataset_handling "memory" = .ok .loadMemory
    ∧ program_dataset_handling "streaming" = .ok .loadStreaming := by
  refine ⟨fun h => ?_, rfl, rfl⟩
  unfold program_dataset_handling parse_args_dataset_handling
  rw [if_neg]
  rintro (h1 | h2)
  · exact h.1 h1
  · exact h.2 h2

/-- Witness for C8 at a concrete invalid value: `--dataset_handling bogus`
exits at argument parsing, before any data loading. -/
theorem c8_dataset_handling_witness :
    program_dataset_handling "bogus" = .error .systemExit :=
  (c8_dataset_handling_fails_fast "bogus").1 (by simp)

/-! ## The lazy record generator over a TinyDB store (lines 198-233)

`iterable_dataset_generator` reads the CSV into a dataframe, opens the
persistent store `f"{file_stem}.json"`, appends every row with
`insert_multiple`, requests `list(range(len(db)))` as document ids in
shuffled, chunked order, and yields `dict(doc)` for every returned document.

TinyDB semantics used by the model (tinydb ≥ 4.8, as its documentation and
implementation state): document ids are assigned consecutively starting at
`1` for an empty table (in general `max` of the existing ids plus one);
`len(db)` is the number of stored documents; `db.get(doc_ids=ids)` filters
the table's documents by membership of their id in the requested set,
returning them in table (insertion) order — a requested id that matches no
document is silently skipped. -/

/-- A TinyDB table: the stored documents as `(doc_id, row)` pairs in
insertion order.  The JSON file on disk persists between invocations of the
generator, which is modelled by threading this value. -/
structure TinyDB (Row : Type) : Type where
  docs : List (ℕ × Row)
deriving DecidableEq

/-- A store whose backing file does not exist yet. -/
def TinyDB.empty {Row : Type} : TinyDB Row := ⟨[]⟩

/-- Python `len(db)`: the number of stored documents. -/
def TinyDB.len {Row : Type} (db : TinyDB Row) : ℕ := db.docs.length

/-- The next document id TinyDB assigns: one more than the largest existing
id, and `1` on an empty table. -/
def TinyDB.next_id {Row : Type} (db : TinyDB Row) : ℕ :=
  (db.docs.map Prod.fst).foldr max 0 + 1

/-- Model of `db.insert_multiple(rows)`: append the rows with consecutive fresh
document ids. -/
def TinyDB.insert_multiple {Row : Type} (db : TinyDB Row) (rows : List Row) :
    TinyDB Row :=
  ⟨db.docs ++ List.enumFrom db.next_id rows⟩

/-- Model of `db.get(doc_ids=ids)` (the generator's `get_data`): the stored documents
whose id belongs to the requested list, in table order; ids that match
nothing are skipped. -/
def TinyDB.get_docs {Row : Type} (db : TinyDB Row) (ids : List ℕ) :
    List (ℕ × Row) :=
  db.docs.filter (fun d => decide (d.1 ∈ ids))

/-- The chunk comprehension `[ids[i : i + batch_size] for i in range(0,
len(ids), batch_size)]`, fuel-indexed: fuel at least `l.length` is enough
for a positive batch size since every step drops at least one element. -/
def chunkFuel (batch_size : ℕ) : ℕ → List ℕ → List (List ℕ)
  | 0, _ => []
  | _ + 1, [] => []
  | f + 1, l => l.take batch_size :: chunkFuel batch_size f (l.drop batch_size)

/-- The list of id chunks the generator walks. -/
def chunked (batch_size : ℕ) (l : List ℕ) : List (List ℕ) :=
  chunkFuel batch_size l.length l

/-- One invocation of `iterable_dataset_generator(file, batch_size)`
(lines 198-233): `rows` are the CSV's records, `db0` the current contents of
the persistent store `f"{file_stem}.json"`, and `shuffle` the permutation
`random.shuffle` applies to `list(range(len(db)))`.  The result is the full
(finite) sequence the generator yields, paired with the store it leaves
behind; `range` with step `0` is Python's `ValueError`. -/
def iterable_dataset_generator {Row : Type} (rows : List Row) (db0 : TinyDB Row)
    (shuffle : List ℕ → List ℕ) (batch_size : ℕ) :
    Except PyError (List Row × TinyDB Row) :=
  if batch_size = 0 then .error .valueError
  else
    .ok ((chunked batch_size (shuffle (List.range (db0.insert_multiple rows).len))).flatMap
      (fun sub_ids => ((db0.insert_multiple rows).get_docs sub_ids).map (fun doc => doc.2)),
      db0.insert_multiple rows)

/-- Invocation number `k` (zero-based) of the generator over the same source
file, with the store file persisting between invocations — exactly what
happens when the streaming dataset is iterated once per epoch.  `shuffles j`
is the shuffle of invocation `j`. -/
def generator_passes {Row : Type} (rows : List Row) (shuffles : ℕ → List ℕ → List ℕ)
    (batch_size : ℕ) : ℕ → Except PyError (List Row × TinyDB Row)
  | 0 => iterable_dataset_generator rows TinyDB.empty (shuffles 0) batch_size
  | k + 1 =>
    match generator_passes rows shuffles batch_size k with
    | .error e => .error e
    | .ok (_, db) => iterable_dataset_generator rows db (shuffles (k + 1)) batch_size

/-! ### Multiset analysis of one generator invocation -/

/-- Helper: `enumFrom` keeps the length. -/
lemma enumFrom_length {α : Type} (n : ℕ) (l : List α) :
    (List.enumFrom n l).length = l.length := by
  have h := congrArg List.length (List.enumFrom_map_snd n l)
  rw [List.length_map] at h
  exact h

/-- Helper: a positive batch size lets `chunkFuel` consume the whole list,
and the chunks concatenate back to it. -/
lemma chunkFuel_flatten (bs : ℕ) (hbs : bs ≠ 0) :
    ∀ (f : ℕ) (l : List ℕ), l.length ≤ f → (chunkFuel bs f l).flatten = l := by
  intro f
  induction f with
  | zero =>
    intro l hl
    rw [List.length_eq_zero.mp (Nat.le_zero.mp hl)]
    rfl
  | succ f ih =>
    intro l hl
    match l with
    | [] => rfl
    | x :: xs =>
      show (List.take bs (x :: xs) :: chunkFuel bs f (List.drop bs (x :: xs))).flatten
        = x :: xs
      rw [List.flatten_cons, ih (List.drop bs (x :: xs)) ?_, List.take_append_drop]
      have h1 : (x :: xs).length = xs.length + 1 := rfl
      rw [List.length_drop, h1]
      simp only [h1] at hl
      omega

/-- Helper: the chunk list concatenates back to the id list. -/
lemma chunked_flatten (bs : ℕ) (hbs : bs ≠ 0) (l : List ℕ) :
    (chunked bs l).flatten = l :=
  chunkFuel_flatten bs hbs l.length l le_rfl

/-- Helper: filtering once by each of two predicates that never hold together
is, up to permutation, filtering by their disjunction. -/
lemma filter_append_perm_or {α : Type} (p q : α → Bool) (l : List α)
    (hdisj : ∀ x ∈ l, ¬(p x = true ∧ q x = true)) :
    (l.filter p ++ l.filter q).Perm (l.filter (fun x => p x || q x)) := by
  induction l with
  | nil => simp
  | cons x xs ih =>
    have hx := hdisj x (List.mem_cons_self x xs)
    have ihx := ih (fun y hy => hdisj y (List.mem_cons_of_mem x hy))
    rcases hp : p x with hpf | hpt
    · rcases hq : q x with hqf | hqt
      · simp only [List.filter_cons, hp, hq, Bool.false_or, if_neg Bool.false_ne_true]
        exact ihx
      · simp only [List.filter_cons, hp, hq, Bool.false_or, if_neg Bool.false_ne_true,
          if_pos rfl]
        exact List.perm_middle.trans (ihx.cons x)
    · rcases hq : q x with hqf | hqt
      · simp only [List.filter_cons, hp, hq, Bool.true_or, if_pos rfl,
          if_neg Bool.false_ne_true, List.cons_append]
        exact ihx.cons x
      · exact absurd ⟨hp, hq⟩ hx

/-- Helper: walking pairwise-disjoint id chunks and filtering the table by
each chunk is, up to permutation, one filter of the table by the union of
the chunks. -/
lemma flatMap_get_docs_perm {Row : Type} (docs : List (ℕ × Row)) :
    ∀ cs : List (List ℕ), cs.flatten.Nodup →
      (cs.flatMap (fun c => docs.filter (fun d => decide (d.1 ∈ c)))).Perm
        (docs.filter (fun d => decide (d.1 ∈ cs.flatten))) := by
  intro cs
  induction cs with
  | nil => simp
  | cons c cs ih =>
    intro hnd
    rw [List.flatten_cons, List.nodup_append] at hnd
    obtain ⟨-, hnd2, hdisj⟩ := hnd
    have hcongr : docs.filter (fun d => decide (d.1 ∈ (c :: cs).flatten))
        = docs.filter (fun d => decide (d.1 ∈ c) || decide (d.1 ∈ cs.flatten)) := by
      apply List.filter_congr
      intro d _
      simp [List.flatten_cons, List.mem_append]
    rw [List.flatMap_cons, hcongr]
    refine (List.Perm.append_left _ (ih hnd2)).trans ?_
    apply filter_append_perm_or
    intro d _ hboth
    have h1 : d.1 ∈ c := of_decide_eq_true hboth.1
    have h2 : d.1 ∈ cs.flatten := of_decide_eq_true hboth.2
    exact hdisj h1 h2

/-- Helper: among documents enumerated from index `n`, those with id below
`K` are exactly the enumeration of the first `K - n` rows. -/
lemma enumFrom_filter_lt {Row : Type} :
    ∀ (c : List Row) (n K : ℕ),
      (List.enumFrom n c).filter (fun d => decide (d.1 < K))
        = List.enumFrom n (c.take (K - n)) := by
  intro c
  induction c with
  | nil => intro n K; simp
  | cons a tl ih =>
    intro n K
    rw [List.enumFrom_cons, List.filter_cons]
    by_cases h : n < K
    · rw [if_pos (by simpa using h), ih (n + 1) K]
      have hK : K - n = (K - (n + 1)) + 1 := by omega
      rw [hK, List.take_succ_cons, List.enumFrom_cons]
    · rw [if_neg (by simpa using h), ih (n + 1) K]
      have h1 : K - (n + 1) = 0 := by omega
      have h2 : K - n = 0 := by omega
      rw [h1, h2]
      rfl

/-- Helper: the largest element of `range' n m` under `foldr max 0`. -/
lemma foldr_max_range' :
    ∀ (m n : ℕ), (List.range' n m).foldr max 0 = if m = 0 then 0 else n + m - 1 := by
  intro m
  induction m with
  | zero => intro n; rfl
  | succ m ih =>
    intro n
    rw [List.range'_succ, List.foldr_cons, ih (n + 1)]
    by_cases h : m = 0
    · subst h
      simp
    · rw [if_neg h, if_neg (Nat.succ_ne_zero m)]
      rw [Nat.max_eq_right (by omega)]
      omega

/-- Helper: on a table whose ids are exactly `1..len`, TinyDB's next id is
`len + 1`. -/
lemma next_id_enumFrom {Row : Type} (c : List Row) :
    (TinyDB.mk (List.enumFrom 1 c)).next_id = c.length + 1 := by
  show ((List.enumFrom 1 c).map Prod.fst).foldr max 0 + 1 = c.length + 1
  rw [List.enumFrom_map_fst, foldr_max_range']
  by_cases h : c.length = 0
  · rw [if_pos h, h]
  · rw [if_neg h]
    omega

/-- Helper: inserting rows into a table holding `content` under ids
`1..content.length` appends them under the next consecutive ids. -/
lemma insert_multiple_enumFrom {Row : Type} (content rows : List Row) :
    (TinyDB.mk (List.enumFrom 1 content)).insert_multiple rows
      = ⟨List.enumFrom 1 (content ++ rows)⟩ := by
  show TinyDB.mk (List.enumFrom 1 content
      ++ List.enumFrom (TinyDB.mk (List.enumFrom 1 content)).next_id rows) = _
  rw [next_id_enumFrom, List.enumFrom_append, Nat.add_comm 1 content.length]

/-- Helper, the heart of C4 and C10: one generator invocation over a store
holding `content` under ids `1..content.length` appends `rows` under ids
`content.length + 1 .. content.length + rows.length`, but then requests ids
`0 .. content.length + rows.length - 1`; id `0` matches nothing and the last
document is never requested, so the yield is — up to the shuffle's
permutation — everything in the store except its last document. -/
lemma generator_step {Row : Type} (content rows : List Row)
    (shuffle : List ℕ → List ℕ) (bs : ℕ) (hbs : bs ≠ 0)
    (hperm : (shuffle (List.range (content.length + rows.length))).Perm
      (List.range (content.length + rows.length))) :
    ∃ out : List Row,
      iterable_dataset_generator rows ⟨List.enumFrom 1 content⟩ shuffle bs
        = .ok (out, ⟨List.enumFrom 1 (content ++ rows)⟩)
      ∧ out.Perm (content ++ rows).dropLast := by
  have hdb := insert_multiple_enumFrom content rows
  have hlen : (TinyDB.mk (List.enumFrom 1 (content ++ rows))).len
      = content.length + rows.length := by
    show (List.enumFrom 1 (content ++ rows)).length = _
    rw [enumFrom_length, List.length_append]
  refine ⟨_, by rw [iterable_dataset_generator, if_neg hbs, hdb], ?_⟩
  rw [hlen]
  have hids : (shuffle (List.range (content.length + rows.length))).Perm
      (List.range (content.length + rows.length)) := hperm
  have hnd : (shuffle (List.range (content.length + rows.length))).Nodup :=
    (hids.nodup_iff).mpr (List.nodup_range _)
  rw [← List.map_flatMap]
  refine ((flatMap_get_docs_perm _ _ (by rw [chunked_flatten bs hbs]; exact hnd)).map
    (fun doc => doc.2)).trans ?_
  rw [chunked_flatten bs hbs]
  have hfc : (List.enumFrom 1 (content ++ rows)).filter
        (fun d => decide (d.1 ∈ shuffle (List.range (content.length + rows.length))))
      = (List.enumFrom 1 (content ++ rows)).filter
        (fun d => decide (d.1 < content.length + rows.length)) := by
    apply List.filter_congr
    intro d _
    simp only [decide_eq_decide]
    rw [hids.mem_iff, List.mem_range]
  rw [hfc, enumFrom_filter_lt, List.enumFrom_map_snd]
  have hdl : (content ++ rows).dropLast
      = (content ++ rows).take (content.length + rows.length - 1) := by
    rw [List.dropLast_eq_take, List.length_append]
  rw [← hdl]

/-- Helper: appending one more copy behind `n` flattened copies is the same
list as flattening `n + 1` copies. -/
lemma flatten_replicate_concat {α : Type} (n : ℕ) (a : List α) :
    (List.replicate n a).flatten ++ a = (List.replicate (n + 1) a).flatten := by
  induction n with
  | zero => simp
  | succ n ih =>
    have h1 : (List.replicate (n + 1) a).flatten = a ++ (List.replicate n a).flatten := by
      rw [List.replicate_succ, List.flatten_cons]
    have h2 : (List.replicate (n + 1 + 1) a).flatten
        = a ++ (List.replicate (n + 1) a).flatten := by
      rw [List.replicate_succ, List.flatten_cons]
    rw [h1, h2, List.append_assoc, ih]

/-- Helper: the length of `n` flattened copies of a list. -/
lemma flatten_replicate_length {α : Type} (n : ℕ) (a : List α) :
    (List.replicate n a).flatten.length = n * a.length := by
  rw [List.length_flatten, List.map_replicate, List.sum_replicate, smul_eq_mul]

/-- C4 (code bug): a single invocation of the lazy record generator on a
fresh store does not yield all `N` rows of the source file.  TinyDB assigns
the inserted rows the document ids `1..N`, but the generator requests
`list(range(len(db))) = [0..N-1]`: id `0` matches nothing and the last row's
id `N` is never requested, so exactly the last row is dropped and `N - 1`
records come out — `0` records for a one-row file and `[3, 7]` (without the
final `9`) for a three-row file, whatever the chunk size. -/
theorem c4_generator_drops_last_row :
    iterable_dataset_generator [(5 : ℕ)] TinyDB.empty (fun l => l) 1024
      = .ok ([], ⟨[(1, 5)]⟩)
    ∧ iterable_dataset_generator [(3 : ℕ), 7, 9] TinyDB.empty (fun l => l) 1024
      = .ok ([3, 7], ⟨[(1, 3), (2, 7), (3, 9)]⟩)
    ∧ iterable_dataset_generator [(3 : ℕ), 7, 9] TinyDB.empty (fun l => l) 2
      = .ok ([3, 7], ⟨[(1, 3), (2, 7), (3, 9)]⟩) :=
  ⟨rfl, rfl, rfl⟩

/-- Counterexample to C10 as stated: on a one-row source file the second
invocation of the generator (the store file persisting, so the store now
holds two copies of the row under ids 1 and 2) yields one record, not
`k * N = 2 * 1 = 2`, and the single original row appears once, not twice. -/
theorem c10_second_pass_counterexample :
    generator_passes [(5 : ℕ)] (fun _ l => l) 1024 1
      = .ok ([5], ⟨[(1, 5), (2, 5)]⟩)
    ∧ ([(5 : ℕ)] : List ℕ).length ≠ 2 * [(5 : ℕ)].length :=
  ⟨rfl, by decide⟩

/-- C10 amended: the generator's backing store is the persistent file named
after the source file's stem, and every invocation re-inserts all `N` rows
before yielding; but because the requested ids `0..k*N-1` miss the table's
ids `1..k*N` by one, invocation number `k` (1-based; `k = j + 1` below)
yields `k*N - 1` records: up to the shuffle's permutation it yields `k`
copies of the file minus one final copy of the file's last row — so every
original row appears `k` times except the last row, which appears `k - 1`
times. -/
theorem c10_streaming_reinsertion_amended {Row : Type} (rows : List Row)
    (shuffles : ℕ → List ℕ → List ℕ) (bs : ℕ) (j : ℕ) (hbs : bs ≠ 0)
    (hshuf : ∀ (i : ℕ) (l : List ℕ), (shuffles i l).Perm l) :
    ∃ out : List Row,
      generator_passes rows shuffles bs j
        = .ok (out, ⟨List.enumFrom 1 (List.replicate (j + 1) rows).flatten⟩)
      ∧ out.Perm (List.replicate (j + 1) rows).flatten.dropLast
      ∧ out.length = (j + 1) * rows.length - 1 := by
  induction j with
  | zero =>
    obtain ⟨out, heq, hperm⟩ := generator_step [] rows (shuffles 0) bs hbs (hshuf 0 _)
    refine ⟨out, ?_, ?_, ?_⟩
    · show iterable_dataset_generator rows TinyDB.empty (shuffles 0) bs = _
      rw [show (TinyDB.empty : TinyDB Row) = ⟨List.enumFrom 1 []⟩ from rfl, heq]
      simp
    · simpa using hperm
    · rw [hperm.length_eq, List.length_dropLast]
      simp
  | succ j ih =>
    obtain ⟨outj, heqj, -, -⟩ := ih
    obtain ⟨out, heq, hperm⟩ := generator_step ((List.replicate (j + 1) rows).flatten)
      rows (shuffles (j + 1)) bs hbs (hshuf (j + 1) _)
    have hstep : generator_passes rows shuffles bs (j + 1)
        = iterable_dataset_generator rows
            ⟨List.enumFrom 1 (List.replicate (j + 1) rows).flatten⟩
            (shuffles (j + 1)) bs := by
      show (match generator_passes rows shuffles bs j with
        | Except.error e => Except.error e
        | Except.ok (_, db) =>
            iterable_dataset_generator rows db (shuffles (j + 1)) bs) = _
      rw [heqj]
    refine ⟨out, ?_, ?_, ?_⟩
    · rw [hstep, heq, flatten_replicate_concat]
    · rw [← flatten_replicate_concat]
      exact hperm
    · rw [hperm.length_eq, List.length_dropLast, List.length_append,
        flatten_replicate_length]
      have hmul : (j + 1 + 1) * rows.length = (j + 1) * rows.length + rows.length := by
        ring
      rw [hmul]

/-- Witness for C10's amended theorem: the first invocation (`j = 0`) on a
one-row file with the identity shuffle and the default chunk size yields
`1 * 1 - 1 = 0` records and leaves the single row stored under id 1. -/
theorem c10_streaming_reinsertion_witness :
    ∃ out : List ℕ,
      generator_passes [(5 : ℕ)] (fun _ l => l) 1024 0
        = .ok (out, ⟨List.enumFrom 1 (List.replicate 1 [(5 : ℕ)]).flatten⟩)
      ∧ out.Perm (List.replicate 1 [(5 : ℕ)]).flatten.dropLast
      ∧ out.length = 1 * [(5 : ℕ)].length - 1 :=
  c10_streaming_reinsertion_amended [(5 : ℕ)] (fun _ l => l) 1024 0
    (by decide) (fun _ l => List.Perm.refl l)

/-! ## Tensor arithmetic: pooling, similarity, loss

Torch float tensors are modelled as (nested) lists over a linear ordered
field — `ℚ` wherever the claims are settled computationally, `ℝ` where an
L2 norm (a square root) is genuinely involved.  Elementwise torch
operations become `List.zipWith`/`List.map`. -/

section TensorModel

variable {α : Type} [LinearOrderedField α]

/-- Model of `torch.clamp(x, min=c)` on one scalar. -/
def clamp_min (x c : α) : α := max x c

/-- Elementwise sum of two feature vectors. -/
def vecAdd (a b : List α) : List α := List.zipWith (fun x y => x + y) a b

/-- Model of `torch.sum(t, 1)` for one example: sum the token rows of a `(T, D)`
slice into one `D`-vector. -/
def sumRows (D : ℕ) (rows : List (List α)) : List α :=
  rows.foldr vecAdd (List.replicate D 0)

/-- Model of `AutoModelForSentenceEmbedding.mean_pooling` (lines 274-283):
`attention_mask.unsqueeze(-1).expand(token_embeddings.size())` becomes, per
example, `mask.map (List.replicate D)`; the masked token embeddings are
summed over the token dimension and divided elementwise by the expanded
mask's token sums clamped below at `1e-9`. -/
def mean_pooling (D : ℕ) (token_embeddings : List (List (List α)))
    (attention_mask : List (List α)) : List (List α) :=
  List.zipWith
    (fun te mask =>
      List.zipWith (fun s d => s / clamp_min d (1 / 1000000000))
        (sumRows D (List.zipWith
          (fun trow mrow => List.zipWith (fun x y => x * y) trow mrow)
          te (mask.map (fun m => List.replicate D m))))
        (sumRows D (mask.map (fun m => List.replicate D m))))
    token_embeddings attention_mask

/-- The spec's reading of the pooling step, for comparison with
`mean_pooling`: per example, the sum of token vectors weighted elementwise
by the mask, divided by the mask's scalar per-example sum clamped below by
the small positive floor `1e-9`. -/
def spec_mean_pooling (D : ℕ) (token_embeddings : List (List (List α)))
    (attention_mask : List (List α)) : List (List α) :=
  List.zipWith
    (fun te mask =>
      (sumRows D (List.zipWith (fun trow m => trow.map (fun x => x * m)) te mask)).map
        (fun s => s / max mask.sum (1 / 1000000000)))
    token_embeddings attention_mask

/-- Model of `get_cosing_embeddings` (lines 293-294): `torch.sum(q1_embs * q2_embs,
axis=1)` — the per-example sum over the feature dimension of the elementwise
product, with no normalization of its inputs. -/
def get_cosing_embeddings (q1_embs q2_embs : List (List α)) : List α :=
  (List.zipWith (fun r1 r2 => List.zipWith (fun x y => x * y) r1 r2)
    q1_embs q2_embs).map List.sum

/-- The mathematical dot product of two feature vectors. -/
def dot (a b : List α) : α := (List.zipWith (fun x y => x * y) a b).sum

/-- Model of `torch.mean` of a one-dimensional tensor: sum over length. -/
def pymean (v : List α) : α := v.sum / v.length

/-- Model of `get_loss(cosine_score, labels)` (lines 297-303):
`torch.mean(torch.square(labels * (1 - cosine_score) + torch.clamp((1 -
labels) * cosine_score, min=0.0)))`, elementwise over the batch. -/
def get_loss (cosine_score labels : List α) : α :=
  pymean
    ((List.zipWith (fun x y => x + y)
        (List.zipWith (fun l s => l * (1 - s)) labels cosine_score)
        ((List.zipWith (fun l s => (1 - l) * s) labels cosine_score).map
          (fun x => clamp_min x 0))).map
      (fun x => x * x))

/-- The spec's per-pair loss contribution: `(ℓ·(1−s) + max(0, (1−ℓ)·s))²`. -/
def pair_term (l s : α) : α := (l * (1 - s) + max 0 ((1 - l) * s)) ^ 2

end TensorModel

/-- The L2 norm of a feature vector over `ℝ`. -/
noncomputable def l2norm (v : List ℝ) : ℝ :=
  Real.sqrt ((v.map (fun x => x * x)).sum)

/-- Cosine similarity of two real feature vectors. -/
noncomputable def cosine_similarity (a b : List ℝ) : ℝ :=
  dot a b / (l2norm a * l2norm b)

/-- Model of `torch.nn.functional.normalize(x, p=2, dim=1)` on one row:
`x / clamp(‖x‖₂, min=1e-12)`. -/
noncomputable def F_normalize_row (v : List ℝ) : List ℝ :=
  v.map (fun x => x / clamp_min (l2norm v) (1 / 1000000000000))

/-- Model of `AutoModelForSentenceEmbedding.forward` (lines 266-272) after the
wrapped encoder has produced `model_output`: mean-pool, then L2-normalize
each example's embedding exactly when `self.normalize` is set. -/
noncomputable def forward (normalize : Bool) (D : ℕ)
    (model_output : List (List (List ℝ))) (attention_mask : List (List ℝ)) :
    List (List ℝ) :=
  if normalize then (mean_pooling D model_output attention_mask).map F_normalize_row
  else mean_pooling D model_output attention_mask

/-! ### C7: the pooling step -/

section PoolingProofs

variable {α : Type} [LinearOrderedField α]

/-- Helper: zipping a list against enough replicas of a constant is mapping
against that constant. -/
lemma zipWith_replicate_of_le {β γ δ : Type} (f : β → γ → δ) :
    ∀ (l : List β) (n : ℕ) (c : γ), l.length ≤ n →
      List.zipWith f l (List.replicate n c) = l.map (fun x => f x c) := by
  intro l
  induction l with
  | nil => intro n c _; simp
  | cons x xs ih =>
    intro n c hn
    match n with
    | 0 => exact absurd hn (by simp)
    | n + 1 =>
      rw [List.replicate_succ, List.zipWith_cons_cons, List.map_cons,
        ih n c (by simpa using hn)]

/-- Helper: summing the token rows of the expanded mask gives, in every
feature slot, the mask's scalar sum. -/
lemma sumRows_map_replicate (D : ℕ) (mask : List α) :
    sumRows D (mask.map (fun m => List.replicate D m)) = List.replicate D mask.sum := by
  induction mask with
  | nil => simp [sumRows]
  | cons m ms ih =>
    show vecAdd (List.replicate D m) (sumRows D (ms.map _)) = _
    rw [ih, vecAdd, List.zipWith_replicate, min_self, List.sum_cons]

/-- Helper: a summed `(T, D)` slice never exceeds `D` features. -/
lemma sumRows_length_le (D : ℕ) (rows : List (List α)) :
    (sumRows D rows).length ≤ D := by
  induction rows with
  | nil => simp [sumRows]
  | cons r rs ih =>
    show (vecAdd r (sumRows D rs)).length ≤ D
    rw [vecAdd, List.length_zipWith]
    exact le_trans (min_le_right _ _) ih

/-- Helper: on token rows of width `D`, multiplying elementwise by the
expanded mask is scaling each row by its mask entry. -/
lemma masked_rows_eq (D : ℕ) :
    ∀ (te : List (List α)) (mask : List α), (∀ row ∈ te, row.length = D) →
      List.zipWith (fun trow mrow => List.zipWith (fun x y => x * y) trow mrow)
          te (mask.map (fun m => List.replicate D m))
        = List.zipWith (fun trow m => trow.map (fun x => x * m)) te mask := by
  intro te
  induction te with
  | nil => intro mask _; simp
  | cons trow rest ih =>
    intro mask hrows
    match mask with
    | [] => simp
    | m :: ms =>
      rw [List.map_cons, List.zipWith_cons_cons, List.zipWith_cons_cons,
        ih ms (fun r hr => hrows r (List.mem_cons_of_mem _ hr)),
        zipWith_replicate_of_le _ trow D m
          (le_of_eq (hrows trow (List.mem_cons_self _ _)))]

/-- Helper: the code's pooling agrees with the spec's per-example formula on
well-formed slices. -/
lemma mean_pooling_eq_spec (D : ℕ) :
    ∀ (te : List (List (List α))) (mask : List (List α)),
      (∀ ex ∈ te, ∀ row ∈ ex, row.length = D) →
      mean_pooling D te mask = spec_mean_pooling D te mask := by
  intro te
  induction te with
  | nil => intro mask _; rfl
  | cons ex rest ih =>
    intro mask hwf
    match mask with
    | [] => rfl
    | m :: ms =>
      have htail := ih ms (fun e he r hr => hwf e (List.mem_cons_of_mem _ he) r hr)
      unfold mean_pooling spec_mean_pooling at htail ⊢
      rw [List.zipWith_cons_cons, List.zipWith_cons_cons, htail]
      have hex := hwf ex (List.mem_cons_self _ _)
      rw [masked_rows_eq D ex m hex, sumRows_map_replicate,
        zipWith_replicate_of_le _ _ D m.sum (sumRows_length_le D _)]
      rfl

/-- C7: for every batch of token embeddings of feature width `D` and every
attention mask — the all-zero mask included — the pooling step returns, per
example, the mask-weighted sum of the token vectors divided by the mask's
per-example sum clamped below by the positive floor `1e-9`; that clamped
divisor is strictly positive for every mask, so the division never divides
by zero. -/
theorem c7_mean_pooling_clamped (D : ℕ) (token_embeddings : List (List (List ℚ)))
    (attention_mask : List (List ℚ))
    (hwf : ∀ ex ∈ token_embeddings, ∀ row ∈ ex, row.length = D) :
    mean_pooling D token_embeddings attention_mask
      = spec_mean_pooling D token_embeddings attention_mask
    ∧ ∀ mask : List ℚ, 0 < max mask.sum ((1 : ℚ) / 1000000000) := by
  refine ⟨mean_pooling_eq_spec D token_embeddings attention_mask hwf, ?_⟩
  intro mask
  exact lt_of_lt_of_le (by norm_num) (le_max_right _ _)

/-- Witness for C7 at a one-token, one-feature example with an all-zero
attention mask: the code and spec formulas agree, and the clamped divisor
for the zero mask is the strictly positive floor itself. -/
theorem c7_mean_pooling_witness :
    mean_pooling 1 [[[(2 : ℚ)]]] [[(0 : ℚ)]] = spec_mean_pooling 1 [[[(2 : ℚ)]]] [[(0 : ℚ)]]
    ∧ 0 < max ([(0 : ℚ)] : List ℚ).sum ((1 : ℚ) / 1000000000) :=
  ⟨(c7_mean_pooling_clamped 1 [[[(2 : ℚ)]]] [[(0 : ℚ)]] (by decide)).1,
   (c7_mean_pooling_clamped 1 [[[(2 : ℚ)]]] [[(0 : ℚ)]] (by decide)).2 [(0 : ℚ)]⟩

end PoolingProofs

/-! ### C2 and C5: the contrastive loss -/

section LossProofs

variable {α : Type} [LinearOrderedField α]

/-- Helper: the elementwise torch pipeline inside `get_loss` computes the
spec's per-pair term. -/
lemma loss_terms_eq :
    ∀ (ls ss : List α),
      (List.zipWith (fun x y => x + y)
          (List.zipWith (fun l s => l * (1 - s)) ls ss)
          ((List.zipWith (fun l s => (1 - l) * s) ls ss).map
            (fun x => clamp_min x 0))).map (fun x => x * x)
        = List.zipWith pair_term ls ss := by
  intro ls
  induction ls with
  | nil => intro ss; rfl
  | cons l t ih =>
    intro ss
    match ss with
    | [] => rfl
    | s :: ss2 =>
      show ((l * (1 - s) + clamp_min ((1 - l) * s) 0)
          * (l * (1 - s) + clamp_min ((1 - l) * s) 0)) :: _
        = pair_term l s :: List.zipWith pair_term t ss2
      rw [ih ss2, pair_term, pow_two, clamp_min, max_comm]

/-- Helper: `get_loss` is the mean of the spec's per-pair terms. -/
lemma get_loss_eq_pair_terms (cosine_score labels : List α) :
    get_loss cosine_score labels
      = pymean (List.zipWith pair_term labels cosine_score) := by
  unfold get_loss
  rw [loss_terms_eq]

/-- Helper: every per-pair term is a square, hence non-negative. -/
lemma pair_term_nonneg (l s : α) : 0 ≤ pair_term l s := sq_nonneg _

/-- Helper: the per-pair terms have a non-negative sum. -/
lemma terms_sum_nonneg : ∀ (ls ss : List α), 0 ≤ (List.zipWith pair_term ls ss).sum := by
  intro ls
  induction ls with
  | nil => intro ss; simp
  | cons l t ih =>
    intro ss
    match ss with
    | [] => simp
    | s :: ss2 =>
      rw [List.zipWith_cons_cons, List.sum_cons]
      exact add_nonneg (pair_term_nonneg l s) (ih ss2)

/-- Helper: with labels in `{0, 1}`, the per-pair terms sum to zero exactly
when every duplicate pair has similarity `1` and every non-duplicate pair
has similarity at most `0`. -/
lemma terms_sum_eq_zero_iff :
    ∀ (ls ss : List α), (∀ l ∈ ls, l = 0 ∨ l = 1) →
      ((List.zipWith pair_term ls ss).sum = 0 ↔
        ∀ p ∈ ls.zip ss, (p.1 = 1 → p.2 = 1) ∧ (p.1 = 0 → p.2 ≤ 0)) := by
  intro ls
  induction ls with
  | nil => intro ss _; simp
  | cons l t ih =>
    intro ss hlab
    match ss with
    | [] => simp
    | s :: ss2 =>
      rw [List.zipWith_cons_cons, List.sum_cons, List.zip_cons_cons,
        List.forall_mem_cons,
        add_eq_zero_iff_of_nonneg (pair_term_nonneg l s) (terms_sum_nonneg t ss2),
        ih ss2 (fun x hx => hlab x (List.mem_cons_of_mem _ hx))]
      refine and_congr ?_ Iff.rfl
      rcases hlab l (List.mem_cons_self _ _) with h0 | h1
      · subst h0
        rw [pair_term, pow_eq_zero_iff two_ne_zero]
        constructor
        · intro h
          refine ⟨fun h01 => absurd h01 (by norm_num), fun _ => ?_⟩
          rw [zero_mul, zero_add, sub_zero, one_mul, max_eq_left_iff] at h
          exact h
        · intro h
          rw [zero_mul, zero_add, sub_zero, one_mul, max_eq_left_iff]
          exact h.2 rfl
      · subst h1
        rw [pair_term, pow_eq_zero_iff two_ne_zero]
        constructor
        · intro h
          refine ⟨fun _ => ?_, fun h10 => absurd h10 (by norm_num)⟩
          rw [sub_self, zero_mul, max_self, add_zero, one_mul, sub_eq_zero] at h
          exact h.symm
        · intro h
          rw [sub_self, zero_mul, max_self, add_zero, one_mul, sub_eq_zero]
          exact (h.1 rfl).symm

end LossProofs

/-- C2: for labels in `{0, 1}` and any cosine-score vector, `get_loss` is
the mean over pairs of `(ℓ·(1−s) + max(0, (1−ℓ)·s))²`; in particular the
pair `(ℓ, s) = (1, 0.2)` contributes `0.64`, `(0, 0.3)` contributes `0.09`
and `(0, −0.3)` contributes `0`. -/
theorem c2_loss_formula (cosine_score labels : List ℚ)
    (_hlab : ∀ l ∈ labels, l = 0 ∨ l = 1) :
    get_loss cosine_score labels = pymean (List.zipWith pair_term labels cosine_score)
    ∧ pair_term (1 : ℚ) (2 / 10) = 64 / 100
    ∧ pair_term (0 : ℚ) (3 / 10) = 9 / 100
    ∧ pair_term (0 : ℚ) (-(3 / 10)) = 0 := by
  refine ⟨get_loss_eq_pair_terms _ _, ?_, ?_, ?_⟩
  · rw [pair_term]
    norm_num
  · rw [pair_term, max_eq_right (by norm_num : (0 : ℚ) ≤ (1 - 0) * (3 / 10))]
    norm_num
  · rw [pair_term, max_eq_left (by norm_num : (1 - 0) * (-(3 / 10)) ≤ (0 : ℚ))]
    norm_num

/-- Witness for C2 on the spec's example batch: labels `[1, 0]` with scores
`[0.2, 0.3]`. -/
theorem c2_loss_formula_witness :
    get_loss [(2 : ℚ) / 10, 3 / 10] [(1 : ℚ), 0]
      = pymean (List.zipWith pair_term [(1 : ℚ), 0] [(2 : ℚ) / 10, 3 / 10])
    ∧ pair_term (1 : ℚ) (2 / 10) = 64 / 100 :=
  ⟨(c2_loss_formula [(2 : ℚ) / 10, 3 / 10] [(1 : ℚ), 0] (by norm_num)).1,
   (c2_loss_formula [(2 : ℚ) / 10, 3 / 10] [(1 : ℚ), 0] (by norm_num)).2.1⟩

/-- C5: for a nonempty batch of labeled pairs with labels in `{0, 1}`, the
loss is zero exactly when every pair with label `1` has cosine similarity
`1` and every pair with label `0` has cosine similarity at most `0`; and a
nonzero loss is strictly positive. -/
theorem c5_loss_zero_iff (cosine_score labels : List ℚ)
    (hlen : labels.length = cosine_score.length) (hne : labels ≠ [])
    (hlab : ∀ l ∈ labels, l = 0 ∨ l = 1) :
    (get_loss cosine_score labels = 0 ↔
      ∀ p ∈ labels.zip cosine_score, (p.1 = 1 → p.2 = 1) ∧ (p.1 = 0 → p.2 ≤ 0))
    ∧ (get_loss cosine_score labels ≠ 0 → 0 < get_loss cosine_score labels) := by
  have hterms := get_loss_eq_pair_terms (α := ℚ) cosine_score labels
  have hlength : (List.zipWith pair_term labels cosine_score).length = labels.length := by
    rw [List.length_zipWith, hlen, min_self]
  have hlnz : ((labels.length : ℚ)) ≠ 0 := by
    rw [Nat.cast_ne_zero]
    intro h
    exact hne (List.length_eq_zero.mp h)
  constructor
  · rw [hterms, pymean, div_eq_zero_iff, hlength, or_iff_left hlnz]
    exact terms_sum_eq_zero_iff labels cosine_score hlab
  · intro hne0
    refine lt_of_le_of_ne ?_ (Ne.symm hne0)
    rw [hterms, pymean]
    exact div_nonneg (terms_sum_nonneg _ _) (Nat.cast_nonneg _)

/-- Witness for C5: the batch with a duplicate pair of similarity `1` and a
non-duplicate pair of similarity `−1/2` has loss exactly zero. -/
theorem c5_loss_zero_witness :
    get_loss [(1 : ℚ), -(1 / 2)] [(1 : ℚ), 0] = 0 :=
  (c5_loss_zero_iff [(1 : ℚ), -(1 / 2)] [(1 : ℚ), 0] rfl (by simp)
    (by norm_num)).1.mpr (by norm_num)

/-! ### C9: raw dot product versus cosine similarity -/

/-- Counterexample to C9 as stated: with the normalize flag true, the
wrapper's forward pass does not always establish unit-normalized outputs.
For an all-zero token embedding the pooled vector is zero, `F.normalize`
divides it by the clamp floor `1e-12` and returns the zero vector again,
whose L2 norm is `0`, not `1`. -/
theorem c9_zero_embedding_counterexample :
    forward true 1 [[[(0 : ℝ)]]] [[(1 : ℝ)]] = [[(0 : ℝ)]]
    ∧ l2norm [(0 : ℝ)] = 0 ∧ (0 : ℝ) ≠ 1 := by
  refine ⟨?_, ?_, by norm_num⟩
  · simp [forward, mean_pooling, sumRows, vecAdd, clamp_min, F_normalize_row, l2norm]
  · simp [l2norm]

/-- C9 amended: `get_cosing_embeddings` returns the raw per-example dot
product — the sum over the feature dimension of the elementwise product —
with no normalization of its inputs; on unit-normalized inputs that raw dot
product coincides with cosine similarity; the wrapper's forward pass applies
the rowwise L2 normalization exactly when its normalize flag is true, and
that normalization yields a unit vector for every pooled embedding whose L2
norm is at least `F.normalize`'s clamp floor `1e-12` (a pooled embedding
below the floor — such as the zero vector of the counterexample — is divided
by the floor instead and stays short of unit norm). -/
theorem c9_cosing_raw_dot_amended :
    (∀ q1_embs q2_embs : List (List ℝ),
        get_cosing_embeddings q1_embs q2_embs = List.zipWith dot q1_embs q2_embs)
    ∧ (∀ a b : List ℝ, l2norm a = 1 → l2norm b = 1 → cosine_similarity a b = dot a b)
    ∧ (∀ (D : ℕ) (mo : List (List (List ℝ))) (mask : List (List ℝ)),
        forward true D mo mask = (mean_pooling D mo mask).map F_normalize_row
        ∧ forward false D mo mask = mean_pooling D mo mask)
    ∧ (∀ v : List ℝ, (1 / 1000000000000 : ℝ) ≤ l2norm v
        → l2norm (F_normalize_row v) = 1) := by
  refine ⟨?_, ?_, fun D mo mask => ⟨rfl, rfl⟩, ?_⟩
  · intro q1 q2
    rw [get_cosing_embeddings, List.map_zipWith]
    rfl
  · intro a b ha hb
    rw [cosine_similarity, ha, hb, one_mul, div_one]
  · intro v hv
    have heps : (0 : ℝ) < 1 / 1000000000000 := by norm_num
    have hpos : 0 < l2norm v := lt_of_lt_of_le heps hv
    have hS : 0 ≤ (v.map fun x => x * x).sum := by
      apply List.sum_nonneg
      intro y hy
      obtain ⟨x, -, rfl⟩ := List.mem_map.mp hy
      exact mul_self_nonneg x
    have hclamp : clamp_min (l2norm v) (1 / 1000000000000) = l2norm v :=
      max_eq_left hv
    have hfun : ((fun x => x * x) ∘ fun x => x / l2norm v)
        = fun x => x * x * (l2norm v * l2norm v)⁻¹ := by
      funext x
      show (x / l2norm v) * (x / l2norm v) = x * x * (l2norm v * l2norm v)⁻¹
      rw [div_mul_div_comm, div_eq_mul_inv]
    rw [F_normalize_row, hclamp]
    show Real.sqrt (((v.map fun x => x / l2norm v).map fun x => x * x).sum) = 1
    rw [List.map_map, hfun, List.sum_map_mul_right, Real.sqrt_mul hS, Real.sqrt_inv,
      Real.sqrt_mul_self (le_of_lt hpos)]
    show l2norm v * (l2norm v)⁻¹ = 1
    exact mul_inv_cancel₀ (ne_of_gt hpos)

/-- Witness for C9's amended theorem on concrete unit vectors: the dot
product of `[1]` with itself is its cosine similarity, and normalizing `[1]`
yields a unit vector. -/
theorem c9_cosing_raw_dot_witness :
    cosine_similarity [(1 : ℝ)] [(1 : ℝ)] = dot [(1 : ℝ)] [(1 : ℝ)]
    ∧ l2norm (F_normalize_row [(1 : ℝ)]) = 1 := by
  have h1 : l2norm [(1 : ℝ)] = 1 := by
    simp [l2norm]
  exact ⟨c9_cosing_raw_dot_amended.2.1 [(1 : ℝ)] [(1 : ℝ)] h1 h1,
    c9_cosing_raw_dot_amended.2.2.2 [(1 : ℝ)] (by rw [h1]; norm_num)⟩

end PeftLora
